import Mathlib

/-!
Verification of `copy_skill.py`.

The script is a one-shot setup helper: it (1) removes the destination
directory `.skill` if it exists, (2) recursively copies the `scripts`
subtree of a hard-coded source directory to `.skill/scripts`, printing a
line, and (3) does the same for `data`, printing a second line.  Any
failure of a filesystem primitive propagates as an uncaught exception.

We embed the filesystem shallowly: a path is a list of name components,
and a filesystem state records which paths are directories and the byte
contents of each file.  `shutil.rmtree` and `shutil.copytree`
(with its default `dirs_exist_ok=False`) are translated as state
transformers that can fail, mirroring the exceptions CPython raises:
`rmtree` fails on a missing path or a non-directory; `copytree` fails when
the source is not a directory or the destination already exists, and
otherwise creates the destination (together with its missing ancestors,
as `os.makedirs` does) and mirrors the whole source subtree.  A run of
`copy_skill` returns the final filesystem, the stdout lines emitted so
far, and the uncaught error, if any.
-/

namespace CopySkill

/-- A filesystem path, as its list of name components. -/
abbrev FsPath := List String

/-- File contents, as a list of bytes. -/
abbrev Bytes := List Nat

/-- A filesystem state: which paths are directories, and the contents of
the file at each path, when one is there. -/
structure FS where
  isDir : FsPath → Bool
  file  : FsPath → Option Bytes

/-- `SOURCE_DIR = Path(r"C:\Users\emili\Downloads\skills\ui-ux-pro-max-skill\src\ui-ux-pro-max")`. -/
def SOURCE_DIR : FsPath :=
  ["C:", "Users", "emili", "Downloads", "skills", "ui-ux-pro-max-skill",
   "src", "ui-ux-pro-max"]

/-- `DEST_DIR = Path(r".skill")`. -/
def DEST_DIR : FsPath := [".skill"]

/-- `Path.exists()`: the path is a directory or a file. -/
def pexists (fs : FS) (p : FsPath) : Bool :=
  fs.isDir p || (fs.file p).isSome

/-- The exceptions the script's filesystem primitives can raise. -/
inductive FsError where
  | rmtreeMissing (p : FsPath)
  | rmtreeNotADir (p : FsPath)
  | copySrcMissing (p : FsPath)
  | copyDstExists (p : FsPath)
deriving DecidableEq

/-- `shutil.rmtree p`: remove the directory `p` and everything below it.
Raises on a missing path (`FileNotFoundError`) or on a non-directory
(`NotADirectoryError`); both checks precede any deletion. -/
def rmtree (fs : FS) (p : FsPath) : Except FsError FS :=
  if pexists fs p = false then .error (.rmtreeMissing p)
  else if fs.isDir p = false then .error (.rmtreeNotADir p)
  else .ok
    { isDir := fun q => fs.isDir q && !(List.isPrefixOf p q)
      file  := fun q => if List.isPrefixOf p q then none else fs.file q }

/-- `shutil.copytree src dst` with the default `dirs_exist_ok=False`:
fails when `src` is not a directory or when `dst` already exists;
otherwise creates `dst` and the missing ancestors of `dst` (via
`os.makedirs`, which creates every nonempty proper prefix) and mirrors
the subtree rooted at `src` to the subtree rooted at `dst`, preserving
relative paths and file bytes. -/
def copytree (fs : FS) (src dst : FsPath) : Except FsError FS :=
  if fs.isDir src = false then .error (.copySrcMissing src)
  else if pexists fs dst = true then .error (.copyDstExists dst)
  else .ok
    { isDir := fun q =>
        fs.isDir q
          || (List.isPrefixOf dst q && fs.isDir (src ++ q.drop dst.length))
          || (!q.isEmpty && List.isPrefixOf q dst)
      file  := fun q =>
        if List.isPrefixOf dst q then fs.file (src ++ q.drop dst.length)
        else fs.file q }

/-- `scripts_src = SOURCE_DIR / "scripts"`. -/
def scriptsSrc : FsPath := SOURCE_DIR ++ ["scripts"]

/-- `scripts_dest = DEST_DIR / "scripts"`. -/
def scriptsDest : FsPath := DEST_DIR ++ ["scripts"]

/-- `data_src = SOURCE_DIR / "data"`. -/
def dataSrc : FsPath := SOURCE_DIR ++ ["data"]

/-- `data_dest = DEST_DIR / "data"`. -/
def dataDest : FsPath := DEST_DIR ++ ["data"]

/-- Rendering of a `pathlib` path in an f-string (Windows separator,
matching the script's Windows source path). -/
def pathStr (p : FsPath) : String := String.intercalate "\\" p

/-- The first print: `print(f"Copied scripts to {scripts_dest}")`. -/
def scriptsLine : String := "Copied scripts to " ++ pathStr scriptsDest

/-- The second print: `print(f"Copied data to {data_dest}")`. -/
def dataLine : String := "Copied data to " ++ pathStr dataDest

/-- Lines 10-11 of the script: `if DEST_DIR.exists(): shutil.rmtree(DEST_DIR)`. -/
def resetStep (fs : FS) : Except FsError FS :=
  if pexists fs DEST_DIR then rmtree fs DEST_DIR else .ok fs

/-- The observable outcome of one run: final filesystem, the stdout lines
printed before the run ended, and the uncaught error if the run failed. -/
structure RunResult where
  fs : FS
  out : List String
  err : Option FsError

/-- Lines 19-23 of the script, from the state after the scripts copy:
copy `data`, print the second line.  An exception here leaves the
filesystem as it was after the scripts copy and only the first line
printed. -/
def dataStep (fs2 : FS) : RunResult :=
  match copytree fs2 dataSrc dataDest with
  | .error e => ⟨fs2, [scriptsLine], some e⟩
  | .ok fs3 => ⟨fs3, [scriptsLine, dataLine], none⟩

/-- Lines 13-23 of the script, from the state after the reset: copy
`scripts`, print the first line, then continue with the data copy.  An
exception here leaves the filesystem as after the reset and nothing
printed. -/
def scriptsStep (fs1 : FS) : RunResult :=
  match copytree fs1 scriptsSrc scriptsDest with
  | .error e => ⟨fs1, [], some e⟩
  | .ok fs2 => dataStep fs2

/-- The body of `copy_skill()`: reset the destination, copy `scripts`
and print a line, copy `data` and print a line; an exception aborts the
run at that point, leaving the mutations and output made so far. -/
def copy_skill (fs : FS) : RunResult :=
  match resetStep fs with
  | .error e => ⟨fs, [], some e⟩
  | .ok fs1 => scriptsStep fs1

/-- The `if __name__ == "__main__":` entry point: the command line and the
environment are never read, so `main` ignores them. -/
def main (_argv : List String) (_env : List (String × String)) (fs : FS) :
    RunResult :=
  copy_skill fs

/-! ### Concrete example filesystems (the spec's example scenario) -/

/-- The chain of directories making up the source tree, with the two
subdirectories to be copied. -/
def srcTreeDirs : List FsPath :=
  [[], ["C:"], ["C:", "Users"], ["C:", "Users", "emili"],
   ["C:", "Users", "emili", "Downloads"],
   ["C:", "Users", "emili", "Downloads", "skills"],
   ["C:", "Users", "emili", "Downloads", "skills", "ui-ux-pro-max-skill"],
   ["C:", "Users", "emili", "Downloads", "skills", "ui-ux-pro-max-skill",
    "src"],
   SOURCE_DIR, scriptsSrc, dataSrc]

/-- The spec's example scenario: `scripts/build.sh` and
`data/config.json` exist in the source; the destination does not exist. -/
def fsFresh : FS where
  isDir := fun p => srcTreeDirs.contains p
  file := fun p =>
    if p == scriptsSrc ++ ["build.sh"] then some [7, 7]
    else if p == dataSrc ++ ["config.json"] then some [3, 14]
    else none

/-- The same source tree, but the destination already exists and holds a
stale subdirectory with a stale file. -/
def fsEx : FS where
  isDir := fun p =>
    (srcTreeDirs ++ [DEST_DIR, DEST_DIR ++ ["old"]]).contains p
  file := fun p =>
    if p == DEST_DIR ++ ["old", "stale.txt"] then some [9]
    else fsFresh.file p

/-- A source tree whose `data` subdirectory is missing; the destination
exists as an empty directory. -/
def fsNoData : FS where
  isDir := fun p =>
    (p == DEST_DIR) || (srcTreeDirs.contains p && !(p == dataSrc))
  file := fun p =>
    if p == scriptsSrc ++ ["build.sh"] then some [7, 7] else none

/-! ### Helper lemmas about path prefixes -/

lemma isPrefixOf_append_right (p r : List String) :
    List.isPrefixOf p (p ++ r) = true := by
  induction p with
  | nil => simp [List.isPrefixOf]
  | cons a as ih => simp [List.isPrefixOf, ih]

lemma isPrefixOf_append_left (p r : List String) :
    List.isPrefixOf (p ++ r) p = r.isEmpty := by
  induction p with
  | nil => cases r <;> simp [List.isPrefixOf]
  | cons a as ih => simp [List.isPrefixOf, ih]

lemma isPrefixOf_of_append_isPrefixOf (p s q : List String)
    (h : List.isPrefixOf (p ++ s) q = true) : List.isPrefixOf p q = true := by
  induction p generalizing q with
  | nil => simp [List.isPrefixOf]
  | cons a as ih =>
    cases q with
    | nil => simp [List.isPrefixOf] at h
    | cons b bs =>
      simp only [List.cons_append, List.isPrefixOf, Bool.and_eq_true] at h ⊢
      exact ⟨h.1, ih bs h.2⟩

lemma singleton_isPrefixOf (x : String) (t q : List String)
    (h : List.isPrefixOf q (x :: t) = true) (hq : q.isEmpty = false) :
    List.isPrefixOf [x] q = true := by
  cases q with
  | nil => simp at hq
  | cons a as =>
    simp only [List.isPrefixOf, Bool.and_eq_true, beq_iff_eq] at h ⊢
    simp [h.1]

lemma pexists_false_iff (fs : FS) (p : FsPath) :
    pexists fs p = false ↔ (fs.isDir p = false ∧ fs.file p = none) := by
  cases hf : fs.file p <;> simp [pexists, hf]

/-! ### Helper lemmas about the filesystem primitives -/

lemma rmtree_error_shape (fs : FS) (p : FsPath) (e : FsError)
    (h : rmtree fs p = .error e) :
    e = .rmtreeMissing p ∨ e = .rmtreeNotADir p := by
  unfold rmtree at h
  split at h
  · cases h; exact Or.inl rfl
  · split at h
    · cases h; exact Or.inr rfl
    · cases h

lemma copytree_error_shape (fs : FS) (src dst : FsPath) (e : FsError)
    (h : copytree fs src dst = .error e) :
    (e = .copySrcMissing src ∧ fs.isDir src = false)
    ∨ (e = .copyDstExists dst ∧ pexists fs dst = true) := by
  unfold copytree at h
  split at h
  · rename_i hc
    cases h; exact Or.inl ⟨rfl, hc⟩
  · split at h
    · rename_i hc
      cases h; exact Or.inr ⟨rfl, hc⟩
    · cases h

lemma copytree_error_of_src (fs : FS) (src dst : FsPath)
    (hsrc : fs.isDir src = false) :
    copytree fs src dst = .error (.copySrcMissing src) := by
  unfold copytree
  simp [hsrc]

lemma copytree_ok_conds (fs fs2 : FS) (src dst : FsPath)
    (h : copytree fs src dst = .ok fs2) :
    fs.isDir src = true ∧ pexists fs dst = false := by
  unfold copytree at h
  split at h
  · cases h
  · split at h
    · cases h
    · rename_i h1 h2
      exact ⟨by revert h1 ; cases fs.isDir src <;> simp,
             by revert h2 ; cases pexists fs dst <;> simp⟩

lemma copytree_ok_isDir (fs fs2 : FS) (src dst : FsPath)
    (h : copytree fs src dst = .ok fs2) (q : FsPath) :
    fs2.isDir q =
      (fs.isDir q
        || (List.isPrefixOf dst q && fs.isDir (src ++ q.drop dst.length))
        || (!q.isEmpty && List.isPrefixOf q dst)) := by
  unfold copytree at h
  split at h
  · cases h
  · split at h
    · cases h
    · cases h; rfl

lemma copytree_ok_file (fs fs2 : FS) (src dst : FsPath)
    (h : copytree fs src dst = .ok fs2) (q : FsPath) :
    fs2.file q =
      (if List.isPrefixOf dst q then fs.file (src ++ q.drop dst.length)
       else fs.file q) := by
  unfold copytree at h
  split at h
  · cases h
  · split at h
    · cases h
    · cases h; rfl

lemma copytree_ok_of (fs : FS) (src dst : FsPath)
    (hsrc : fs.isDir src = true) (hdst : pexists fs dst = false) :
    ∃ fs2, copytree fs src dst = .ok fs2 :=
  ⟨_, by unfold copytree; rw [hsrc, hdst]; rfl⟩

lemma copytree_ok_frame (fs fs2 : FS) (src dst : FsPath)
    (h : copytree fs src dst = .ok fs2) (q : FsPath)
    (h1 : List.isPrefixOf dst q = false)
    (h2 : (!q.isEmpty && List.isPrefixOf q dst) = false) :
    fs2.isDir q = fs.isDir q ∧ fs2.file q = fs.file q := by
  rw [copytree_ok_isDir fs fs2 src dst h q, copytree_ok_file fs fs2 src dst h q]
  simp [h1, h2]

lemma resetStep_ok_frame (fs fs1 : FS) (h : resetStep fs = .ok fs1)
    (q : FsPath) (hq : List.isPrefixOf DEST_DIR q = false) :
    fs1.isDir q = fs.isDir q ∧ fs1.file q = fs.file q := by
  unfold resetStep at h
  split at h
  · unfold rmtree at h
    split at h
    · cases h
    · split at h
      · cases h
      · cases h; constructor <;> simp [hq]
  · cases h; exact ⟨rfl, rfl⟩

lemma resetStep_ok_clears (fs fs1 : FS)
    (hwf : pexists fs DEST_DIR = false → ∀ r, pexists fs (DEST_DIR ++ r) = false)
    (h : resetStep fs = .ok fs1) (r : FsPath) :
    fs1.isDir (DEST_DIR ++ r) = false ∧ fs1.file (DEST_DIR ++ r) = none := by
  unfold resetStep at h
  split at h
  · unfold rmtree at h
    split at h
    · cases h
    · split at h
      · cases h
      · cases h; constructor <;> simp [isPrefixOf_append_right]
  · rename_i hne
    cases h
    have := (pexists_false_iff fs (DEST_DIR ++ r)).mp
      (hwf (by revert hne ; cases pexists fs DEST_DIR <;> simp) r)
    exact this

lemma resetStep_ok_of (fs : FS)
    (hdir : pexists fs DEST_DIR = true → fs.isDir DEST_DIR = true) :
    ∃ fs1, resetStep fs = .ok fs1 := by
  unfold resetStep
  split
  · rename_i hex
    unfold rmtree
    rw [hex, hdir hex]
    exact ⟨_, rfl⟩
  · exact ⟨fs, rfl⟩

lemma resetStep_error_shape (fs : FS) (e : FsError)
    (h : resetStep fs = .error e) :
    e = .rmtreeNotADir DEST_DIR ∧ pexists fs DEST_DIR = true := by
  unfold resetStep at h
  split at h
  · rename_i hex
    unfold rmtree at h
    split at h
    · rename_i hc
      rw [hex] at hc; cases hc
    · split at h
      · cases h; exact ⟨rfl, hex⟩
      · cases h
  · cases h

/-! ### Disjointness of the concrete paths

The source paths all start with the component `C:` while the destination
paths all start with `.skill`, so neither region ever reaches into the
other; and the two destination subtrees differ at their second
component. -/

lemma off_dest_src (t r : List String) :
    List.isPrefixOf (".skill" :: t) ("C:" :: r) = false := by
  simp [List.isPrefixOf]

lemma off_src_dest (t r : List String) :
    List.isPrefixOf ("C:" :: t) (".skill" :: r) = false := by
  simp [List.isPrefixOf]

lemma off_scripts_data (t r : List String) :
    List.isPrefixOf (".skill" :: "scripts" :: t) (".skill" :: "data" :: r)
      = false := by
  simp [List.isPrefixOf]

lemma off_data_scripts (t r : List String) :
    List.isPrefixOf (".skill" :: "data" :: t) (".skill" :: "scripts" :: r)
      = false := by
  simp [List.isPrefixOf]

/-! ### Run equations: the four possible traces of one run -/

lemma run_of_reset_error (fs : FS) (e : FsError)
    (h : resetStep fs = .error e) : copy_skill fs = ⟨fs, [], some e⟩ := by
  unfold copy_skill; rw [h]

lemma run_of_scripts_error (fs fs1 : FS) (e : FsError)
    (h1 : resetStep fs = .ok fs1)
    (h2 : copytree fs1 scriptsSrc scriptsDest = .error e) :
    copy_skill fs = ⟨fs1, [], some e⟩ := by
  unfold copy_skill; rw [h1]
  show scriptsStep fs1 = _
  unfold scriptsStep; rw [h2]

lemma run_of_data_error (fs fs1 fs2 : FS) (e : FsError)
    (h1 : resetStep fs = .ok fs1)
    (h2 : copytree fs1 scriptsSrc scriptsDest = .ok fs2)
    (h3 : copytree fs2 dataSrc dataDest = .error e) :
    copy_skill fs = ⟨fs2, [scriptsLine], some e⟩ := by
  unfold copy_skill; rw [h1]
  show scriptsStep fs1 = _
  unfold scriptsStep; rw [h2]
  show dataStep fs2 = _
  unfold dataStep; rw [h3]

lemma run_of_all_ok (fs fs1 fs2 fs3 : FS)
    (h1 : resetStep fs = .ok fs1)
    (h2 : copytree fs1 scriptsSrc scriptsDest = .ok fs2)
    (h3 : copytree fs2 dataSrc dataDest = .ok fs3) :
    copy_skill fs = ⟨fs3, [scriptsLine, dataLine], none⟩ := by
  unfold copy_skill; rw [h1]
  show scriptsStep fs1 = _
  unfold scriptsStep; rw [h2]
  show dataStep fs2 = _
  unfold dataStep; rw [h3]

/-- A run that did not raise went through the reset and both copies. -/
lemma copy_skill_ok_shape (fs : FS) (h : (copy_skill fs).err = none) :
    ∃ fs1 fs2 fs3,
      resetStep fs = .ok fs1 ∧
      copytree fs1 scriptsSrc scriptsDest = .ok fs2 ∧
      copytree fs2 dataSrc dataDest = .ok fs3 ∧
      (copy_skill fs).fs = fs3 ∧
      (copy_skill fs).out = [scriptsLine, dataLine] := by
  cases hres : resetStep fs with
  | error e => rw [run_of_reset_error fs e hres] at h; simp at h
  | ok fs1 =>
    cases hs : copytree fs1 scriptsSrc scriptsDest with
    | error e => rw [run_of_scripts_error fs fs1 e hres hs] at h; simp at h
    | ok fs2 =>
      cases hd : copytree fs2 dataSrc dataDest with
      | error e => rw [run_of_data_error fs fs1 fs2 e hres hs hd] at h; simp at h
      | ok fs3 =>
        rw [run_of_all_ok fs fs1 fs2 fs3 hres hs hd]
        exact ⟨fs1, fs2, fs3, rfl, hs, hd, rfl, rfl⟩

/-! ### Paths outside the destination are never touched -/

lemma exists_suffix_of_isPrefixOf (p q : List String)
    (h : List.isPrefixOf p q = true) : ∃ r, q = p ++ r := by
  induction p generalizing q with
  | nil => exact ⟨q, rfl⟩
  | cons a as ih =>
    cases q with
    | nil => simp [List.isPrefixOf] at h
    | cons b bs =>
      simp only [List.isPrefixOf, Bool.and_eq_true, beq_iff_eq] at h
      obtain ⟨r, hr⟩ := ih bs h.2
      exact ⟨r, by rw [← h.1, hr]; rfl⟩

lemma not_under_dest_mirror (q : FsPath) (d : String)
    (hq : List.isPrefixOf DEST_DIR q = false) :
    List.isPrefixOf (DEST_DIR ++ [d]) q = false := by
  cases hT : List.isPrefixOf (DEST_DIR ++ [d]) q
  · rfl
  · exact absurd (isPrefixOf_of_append_isPrefixOf DEST_DIR [d] q hT)
      (by simp [hq])

lemma not_under_dest_ancestor (q : FsPath) (d : String)
    (hq : List.isPrefixOf DEST_DIR q = false) :
    (!q.isEmpty && List.isPrefixOf q (DEST_DIR ++ [d])) = false := by
  cases q with
  | nil => simp
  | cons a q' =>
    simp only [List.isEmpty_cons, Bool.not_false, Bool.true_and]
    cases hT : List.isPrefixOf (a :: q') (DEST_DIR ++ [d])
    · rfl
    · have h1 := singleton_isPrefixOf ".skill" [d] (a :: q')
        (by simpa [DEST_DIR] using hT) rfl
      simp [DEST_DIR] at hq
      simp [hq] at h1

/-- Nothing outside the subtree rooted at `DEST_DIR` is ever created,
deleted or rewritten by a run, whether the run fails or succeeds. -/
lemma copy_skill_frame (fs : FS) (q : FsPath)
    (hq : List.isPrefixOf DEST_DIR q = false) :
    (copy_skill fs).fs.isDir q = fs.isDir q
    ∧ (copy_skill fs).fs.file q = fs.file q := by
  have hms : List.isPrefixOf scriptsDest q = false :=
    not_under_dest_mirror q "scripts" hq
  have hmd : List.isPrefixOf dataDest q = false :=
    not_under_dest_mirror q "data" hq
  have has : (!q.isEmpty && List.isPrefixOf q scriptsDest) = false :=
    not_under_dest_ancestor q "scripts" hq
  have had : (!q.isEmpty && List.isPrefixOf q dataDest) = false :=
    not_under_dest_ancestor q "data" hq
  cases hres : resetStep fs with
  | error e => rw [run_of_reset_error fs e hres]; exact ⟨rfl, rfl⟩
  | ok fs1 =>
    have hf1 := resetStep_ok_frame fs fs1 hres q hq
    cases hs : copytree fs1 scriptsSrc scriptsDest with
    | error e => rw [run_of_scripts_error fs fs1 e hres hs]; exact hf1
    | ok fs2 =>
      have hf2 := copytree_ok_frame fs1 fs2 scriptsSrc scriptsDest hs q hms has
      cases hd : copytree fs2 dataSrc dataDest with
      | error e =>
        rw [run_of_data_error fs fs1 fs2 e hres hs hd]
        exact ⟨hf2.1.trans hf1.1, hf2.2.trans hf1.2⟩
      | ok fs3 =>
        have hf3 := copytree_ok_frame fs2 fs3 dataSrc dataDest hd q hmd had
        rw [run_of_all_ok fs fs1 fs2 fs3 hres hs hd]
        exact ⟨(hf3.1.trans hf2.1).trans hf1.1, (hf3.2.trans hf2.2).trans hf1.2⟩

/-! ### The destination region along the success path -/

/-- After the reset and the scripts copy, the data destination still does
not exist. -/
lemma scriptsStep_dataDest_clear (fs fs1 fs2 : FS)
    (hwf : pexists fs DEST_DIR = false →
      ∀ r, pexists fs (DEST_DIR ++ r) = false)
    (hres : resetStep fs = .ok fs1)
    (hsok : copytree fs1 scriptsSrc scriptsDest = .ok fs2) :
    pexists fs2 dataDest = false := by
  rw [pexists_false_iff]
  have hf := copytree_ok_frame fs1 fs2 scriptsSrc scriptsDest hsok dataDest
    (by decide) (by decide)
  have hcl := resetStep_ok_clears fs fs1 hwf hres ["data"]
  exact ⟨hf.1.trans hcl.1, hf.2.trans hcl.2⟩

/-- With a well-formed destination region and both source subdirectories
present, the whole run goes through. -/
lemma run_ok_of (fs : FS)
    (hdir : pexists fs DEST_DIR = true → fs.isDir DEST_DIR = true)
    (hwf : pexists fs DEST_DIR = false →
      ∀ r, pexists fs (DEST_DIR ++ r) = false)
    (hs : fs.isDir scriptsSrc = true) (hd : fs.isDir dataSrc = true) :
    (copy_skill fs).err = none := by
  obtain ⟨fs1, hres⟩ := resetStep_ok_of fs hdir
  have hcl := resetStep_ok_clears fs fs1 hwf hres
  have hs1 : fs1.isDir scriptsSrc = true :=
    ((resetStep_ok_frame fs fs1 hres scriptsSrc (by decide)).1).trans hs
  have hdst1 : pexists fs1 scriptsDest = false := by
    rw [pexists_false_iff]
    exact hcl ["scripts"]
  obtain ⟨fs2, hsok⟩ := copytree_ok_of fs1 scriptsSrc scriptsDest hs1 hdst1
  have hd2 : fs2.isDir dataSrc = true := by
    have hf2 := copytree_ok_frame fs1 fs2 scriptsSrc scriptsDest hsok dataSrc
      (by decide) (by decide)
    have hf1 := resetStep_ok_frame fs fs1 hres dataSrc (by decide)
    exact (hf2.1.trans hf1.1).trans hd
  have hdd2 : pexists fs2 dataDest = false :=
    scriptsStep_dataDest_clear fs fs1 fs2 hwf hres hsok
  obtain ⟨fs3, hdok⟩ := copytree_ok_of fs2 dataSrc dataDest hd2 hdd2
  rw [run_of_all_ok fs fs1 fs2 fs3 hres hsok hdok]

/-- After a successful run the destination directory holds exactly the
mirror of the two source subtrees: the destination root is a directory
holding no file, each path under `scripts` and `data` mirrors the
corresponding source path, and any other name directly under the
destination maps to nothing. -/
lemma run_ok_dest_chars (fs : FS)
    (hwf : pexists fs DEST_DIR = false →
      ∀ r, pexists fs (DEST_DIR ++ r) = false)
    (hok : (copy_skill fs).err = none) :
    ((copy_skill fs).fs.isDir DEST_DIR = true
      ∧ (copy_skill fs).fs.file DEST_DIR = none)
    ∧ (∀ r, (copy_skill fs).fs.file (scriptsDest ++ r) = fs.file (scriptsSrc ++ r)
         ∧ (copy_skill fs).fs.isDir (scriptsDest ++ r) = fs.isDir (scriptsSrc ++ r))
    ∧ (∀ r, (copy_skill fs).fs.file (dataDest ++ r) = fs.file (dataSrc ++ r)
         ∧ (copy_skill fs).fs.isDir (dataDest ++ r) = fs.isDir (dataSrc ++ r))
    ∧ (∀ a r, a ≠ "scripts" → a ≠ "data" →
         (copy_skill fs).fs.file (DEST_DIR ++ a :: r) = none
         ∧ (copy_skill fs).fs.isDir (DEST_DIR ++ a :: r) = false) := by
  obtain ⟨fs1, fs2, fs3, hres, hsok, hdok, hfs, hout⟩ := copy_skill_ok_shape fs hok
  rw [hfs]
  have hcl := resetStep_ok_clears fs fs1 hwf hres
  have hfr := resetStep_ok_frame fs fs1 hres
  have hsd1 : fs1.isDir scriptsSrc = true := (copytree_ok_conds _ _ _ _ hsok).1
  have hdd2 : fs2.isDir dataSrc = true := (copytree_ok_conds _ _ _ _ hdok).1
  have hI2 := copytree_ok_isDir fs1 fs2 scriptsSrc scriptsDest hsok
  have hF2 := copytree_ok_file fs1 fs2 scriptsSrc scriptsDest hsok
  have hI3 := copytree_ok_isDir fs2 fs3 dataSrc dataDest hdok
  have hF3 := copytree_ok_file fs2 fs3 dataSrc dataDest hdok
  have hsrcS : fs.isDir scriptsSrc = true :=
    ((hfr scriptsSrc (by decide)).1).symm.trans hsd1
  have hsrcD : fs.isDir dataSrc = true := by
    have hf2 := copytree_ok_frame fs1 fs2 scriptsSrc scriptsDest hsok dataSrc
      (by decide) (by decide)
    have hf1 := hfr dataSrc (by decide)
    exact (hf2.1.trans hf1.1).symm.trans hdd2
  refine ⟨⟨?_, ?_⟩, fun r => ⟨?_, ?_⟩, fun r => ⟨?_, ?_⟩,
    fun a r ha1 ha2 => ⟨?_, ?_⟩⟩
  · -- the destination root is a directory
    rw [hI3 DEST_DIR,
      show (!List.isEmpty DEST_DIR && List.isPrefixOf DEST_DIR dataDest) = true
        by decide,
      Bool.or_true]
  · -- and holds no file
    have hclD := hcl []
    rw [List.append_nil] at hclD
    rw [hF3 DEST_DIR]
    simp only [show List.isPrefixOf dataDest DEST_DIR = false by decide,
      Bool.false_eq_true, if_false]
    rw [hF2 DEST_DIR]
    simp only [show List.isPrefixOf scriptsDest DEST_DIR = false by decide,
      Bool.false_eq_true, if_false]
    exact hclD.2
  · -- files under the scripts destination mirror the scripts source
    have hx : List.isPrefixOf dataDest (scriptsDest ++ r) = false :=
      off_data_scripts [] r
    have hy : List.isPrefixOf scriptsDest (scriptsDest ++ r) = true :=
      isPrefixOf_append_right scriptsDest r
    rw [hF3 (scriptsDest ++ r)]
    simp only [hx, Bool.false_eq_true, if_false]
    rw [hF2 (scriptsDest ++ r)]
    simp only [hy, if_true]
    rw [List.drop_left]
    exact (hfr (scriptsSrc ++ r) (off_dest_src _ _)).2
  · -- directories under the scripts destination mirror the scripts source
    have hx : List.isPrefixOf dataDest (scriptsDest ++ r) = false :=
      off_data_scripts [] r
    have hy : List.isPrefixOf scriptsDest (scriptsDest ++ r) = true :=
      isPrefixOf_append_right scriptsDest r
    have hz : List.isPrefixOf (scriptsDest ++ r) dataDest = false :=
      off_scripts_data r []
    have hA : fs1.isDir (scriptsDest ++ r) = false := (hcl ("scripts" :: r)).1
    have hB : List.isPrefixOf (scriptsDest ++ r) scriptsDest = r.isEmpty :=
      isPrefixOf_append_left scriptsDest r
    have hC : fs1.isDir (scriptsSrc ++ r) = fs.isDir (scriptsSrc ++ r) :=
      (hfr (scriptsSrc ++ r) (off_dest_src _ _)).1
    rw [hI3 (scriptsDest ++ r), hI2 (scriptsDest ++ r)]
    rw [List.drop_left]
    simp only [hx, hz, hA, hB, hC, hy, Bool.false_and, Bool.or_false,
      Bool.true_and, Bool.and_false, Bool.false_or]
    cases r with
    | nil =>
      rw [List.append_nil]
      simp [hsrcS]
    | cons b bs => simp
  · -- files under the data destination mirror the data source
    have hy : List.isPrefixOf dataDest (dataDest ++ r) = true :=
      isPrefixOf_append_right dataDest r
    rw [hF3 (dataDest ++ r)]
    simp only [hy, if_true]
    rw [List.drop_left]
    have h1 : List.isPrefixOf scriptsDest (dataSrc ++ r) = false :=
      off_dest_src _ _
    rw [hF2 (dataSrc ++ r)]
    simp only [h1, Bool.false_eq_true, if_false]
    exact (hfr (dataSrc ++ r) (off_dest_src _ _)).2
  · -- directories under the data destination mirror the data source
    have hy : List.isPrefixOf dataDest (dataDest ++ r) = true :=
      isPrefixOf_append_right dataDest r
    have hB : List.isPrefixOf (dataDest ++ r) dataDest = r.isEmpty :=
      isPrefixOf_append_left dataDest r
    have h2false : fs2.isDir (dataDest ++ r) = false := by
      have hp1 : List.isPrefixOf scriptsDest (dataDest ++ r) = false :=
        off_scripts_data [] r
      have hp2 : List.isPrefixOf (dataDest ++ r) scriptsDest = false :=
        off_data_scripts r []
      have hcl1 : fs1.isDir (dataDest ++ r) = false := (hcl ("data" :: r)).1
      rw [hI2 (dataDest ++ r)]
      simp only [hcl1, hp1, hp2, Bool.false_and,
        Bool.and_false, Bool.or_false, Bool.false_or]
    have hmid : fs2.isDir (dataSrc ++ r) = fs.isDir (dataSrc ++ r) := by
      have hf2 := copytree_ok_frame fs1 fs2 scriptsSrc scriptsDest hsok
        (dataSrc ++ r) (off_dest_src _ _)
        (by simp [show List.isPrefixOf (dataSrc ++ r) scriptsDest = false from
          off_src_dest _ _])
      exact hf2.1.trans (hfr (dataSrc ++ r) (off_dest_src _ _)).1
    rw [hI3 (dataDest ++ r)]
    rw [List.drop_left]
    simp only [h2false, hy, hB, hmid, Bool.true_and, Bool.false_or]
    cases r with
    | nil =>
      rw [List.append_nil]
      simp [hsrcD]
    | cons b bs => simp
  · -- any other name directly under the destination holds no file
    have h2 : List.isPrefixOf dataDest (DEST_DIR ++ a :: r) = false := by
      show List.isPrefixOf [".skill", "data"] (".skill" :: a :: r) = false
      simp [List.isPrefixOf, Ne.symm ha2]
    have h1 : List.isPrefixOf scriptsDest (DEST_DIR ++ a :: r) = false := by
      show List.isPrefixOf [".skill", "scripts"] (".skill" :: a :: r) = false
      simp [List.isPrefixOf, Ne.symm ha1]
    rw [hF3 (DEST_DIR ++ a :: r)]
    simp only [h2, Bool.false_eq_true, if_false]
    rw [hF2 (DEST_DIR ++ a :: r)]
    simp only [h1, Bool.false_eq_true, if_false]
    exact (hcl (a :: r)).2
  · -- and is not a directory either
    have h2 : List.isPrefixOf dataDest (DEST_DIR ++ a :: r) = false := by
      show List.isPrefixOf [".skill", "data"] (".skill" :: a :: r) = false
      simp [List.isPrefixOf, Ne.symm ha2]
    have h1 : List.isPrefixOf scriptsDest (DEST_DIR ++ a :: r) = false := by
      show List.isPrefixOf [".skill", "scripts"] (".skill" :: a :: r) = false
      simp [List.isPrefixOf, Ne.symm ha1]
    have h3 : List.isPrefixOf (DEST_DIR ++ a :: r) scriptsDest = false := by
      show List.isPrefixOf (".skill" :: a :: r) [".skill", "scripts"] = false
      simp [List.isPrefixOf, ha1]
    have h4 : List.isPrefixOf (DEST_DIR ++ a :: r) dataDest = false := by
      show List.isPrefixOf (".skill" :: a :: r) [".skill", "data"] = false
      simp [List.isPrefixOf, ha2]
    rw [hI3 (DEST_DIR ++ a :: r), hI2 (DEST_DIR ++ a :: r)]
    simp only [(hcl (a :: r)).1, h1, h2, h3, h4, Bool.false_and,
      Bool.and_false, Bool.or_false, Bool.false_or]

/-! ### The claims -/

/-- Claim C1: whenever `copy_skill` completes successfully, every file
under the destination `scripts` and `data` subtrees holds exactly the
bytes of the source file at the same relative path. -/
theorem copy_skill_copies_files (fs : FS) (hok : (copy_skill fs).err = none) :
    ∀ r, (copy_skill fs).fs.file (scriptsDest ++ r) = fs.file (scriptsSrc ++ r)
       ∧ (copy_skill fs).fs.file (dataDest ++ r) = fs.file (dataSrc ++ r) := by
  obtain ⟨fs1, fs2, fs3, hres, hsok, hdok, hfs, -⟩ := copy_skill_ok_shape fs hok
  rw [hfs]
  have hfr := resetStep_ok_frame fs fs1 hres
  intro r
  constructor
  · rw [copytree_ok_file fs2 fs3 dataSrc dataDest hdok (scriptsDest ++ r)]
    have hx : List.isPrefixOf dataDest (scriptsDest ++ r) = false :=
      off_data_scripts [] r
    simp only [hx, Bool.false_eq_true, if_false]
    rw [copytree_ok_file fs1 fs2 scriptsSrc scriptsDest hsok (scriptsDest ++ r)]
    have hy : List.isPrefixOf scriptsDest (scriptsDest ++ r) = true :=
      isPrefixOf_append_right scriptsDest r
    simp only [hy, if_true]
    rw [List.drop_left]
    exact (hfr (scriptsSrc ++ r) (off_dest_src _ _)).2
  · rw [copytree_ok_file fs2 fs3 dataSrc dataDest hdok (dataDest ++ r)]
    have hy : List.isPrefixOf dataDest (dataDest ++ r) = true :=
      isPrefixOf_append_right dataDest r
    simp only [hy, if_true]
    rw [List.drop_left]
    rw [copytree_ok_file fs1 fs2 scriptsSrc scriptsDest hsok (dataSrc ++ r)]
    have h1 : List.isPrefixOf scriptsDest (dataSrc ++ r) = false :=
      off_dest_src _ _
    simp only [h1, Bool.false_eq_true, if_false]
    exact (hfr (dataSrc ++ r) (off_dest_src _ _)).2

/-- Claim C1 witness: the spec's example scenario on a fresh working
directory. -/
theorem copy_skill_copies_files_witness :
    (copy_skill fsFresh).fs.file (scriptsDest ++ ["build.sh"])
      = fsFresh.file (scriptsSrc ++ ["build.sh"])
    ∧ (copy_skill fsFresh).fs.file (dataDest ++ ["config.json"])
      = fsFresh.file (dataSrc ++ ["config.json"]) :=
  ⟨(copy_skill_copies_files fsFresh rfl ["build.sh"]).1,
   (copy_skill_copies_files fsFresh rfl ["config.json"]).2⟩

/-- Claim C2: after a successful run the destination directory contains
exactly the freshly copied `scripts` and `data` subtrees and nothing
else; every pre-existing entry of the destination is gone.  The
hypothesis says the initial filesystem is tree-shaped at the
destination: when the destination does not exist, nothing exists below
it. -/
theorem copy_skill_resets_destination (fs : FS)
    (hwf : pexists fs DEST_DIR = false →
      ∀ r, pexists fs (DEST_DIR ++ r) = false)
    (hok : (copy_skill fs).err = none) :
    ((copy_skill fs).fs.isDir DEST_DIR = true
      ∧ (copy_skill fs).fs.file DEST_DIR = none)
    ∧ (∀ r, (copy_skill fs).fs.file (scriptsDest ++ r) = fs.file (scriptsSrc ++ r)
         ∧ (copy_skill fs).fs.isDir (scriptsDest ++ r) = fs.isDir (scriptsSrc ++ r))
    ∧ (∀ r, (copy_skill fs).fs.file (dataDest ++ r) = fs.file (dataSrc ++ r)
         ∧ (copy_skill fs).fs.isDir (dataDest ++ r) = fs.isDir (dataSrc ++ r))
    ∧ (∀ a r, a ≠ "scripts" → a ≠ "data" →
         (copy_skill fs).fs.file (DEST_DIR ++ a :: r) = none
         ∧ (copy_skill fs).fs.isDir (DEST_DIR ++ a :: r) = false) :=
  run_ok_dest_chars fs hwf hok

/-- Claim C2 witness: the stale file under the pre-existing destination
is gone after the run. -/
theorem copy_skill_resets_destination_witness :
    (copy_skill fsEx).fs.file (DEST_DIR ++ "old" :: ["stale.txt"]) = none
    ∧ (copy_skill fsEx).fs.isDir DEST_DIR = true :=
  ⟨((copy_skill_resets_destination fsEx (fun h => absurd h (by decide))
      rfl).2.2.2 "old" ["stale.txt"] (by decide) (by decide)).1,
   (copy_skill_resets_destination fsEx (fun h => absurd h (by decide))
      rfl).1.1⟩

/-- Claim C3: the subtrees are processed scripts-then-data.  If the
source `scripts` subdirectory is missing the run fails with nothing
printed and nothing of the data copy performed; if only `data` is
missing, the scripts copy is completed in the destination and its line
printed before the run fails on `data`. -/
theorem copy_skill_scripts_before_data (fs : FS)
    (hdir : pexists fs DEST_DIR = true → fs.isDir DEST_DIR = true)
    (hwf : pexists fs DEST_DIR = false →
      ∀ r, pexists fs (DEST_DIR ++ r) = false) :
    (fs.isDir scriptsSrc = false →
      (copy_skill fs).err = some (.copySrcMissing scriptsSrc)
      ∧ (copy_skill fs).out = []
      ∧ ∀ r, (copy_skill fs).fs.isDir (dataDest ++ r) = false
           ∧ (copy_skill fs).fs.file (dataDest ++ r) = none)
    ∧ (fs.isDir scriptsSrc = true → fs.isDir dataSrc = false →
      (copy_skill fs).err = some (.copySrcMissing dataSrc)
      ∧ (copy_skill fs).out = [scriptsLine]
      ∧ ∀ r, (copy_skill fs).fs.file (scriptsDest ++ r)
           = fs.file (scriptsSrc ++ r)) := by
  obtain ⟨fs1, hres⟩ := resetStep_ok_of fs hdir
  have hcl := resetStep_ok_clears fs fs1 hwf hres
  have hfr := resetStep_ok_frame fs fs1 hres
  constructor
  · intro hmiss
    have hs1 : fs1.isDir scriptsSrc = false :=
      (hfr scriptsSrc (by decide)).1.trans hmiss
    have herr := copytree_error_of_src fs1 scriptsSrc scriptsDest hs1
    rw [run_of_scripts_error fs fs1 _ hres herr]
    refine ⟨rfl, rfl, fun r => ?_⟩
    have hthis := hcl ("data" :: r)
    exact ⟨hthis.1, hthis.2⟩
  · intro hsrcS hdmiss
    have hs1 : fs1.isDir scriptsSrc = true :=
      (hfr scriptsSrc (by decide)).1.trans hsrcS
    have hdst1 : pexists fs1 scriptsDest = false := by
      rw [pexists_false_iff]; exact hcl ["scripts"]
    obtain ⟨fs2, hsok⟩ := copytree_ok_of fs1 scriptsSrc scriptsDest hs1 hdst1
    have hd2 : fs2.isDir dataSrc = false := by
      have hf2 := copytree_ok_frame fs1 fs2 scriptsSrc scriptsDest hsok dataSrc
        (by decide) (by decide)
      exact (hf2.1.trans (hfr dataSrc (by decide)).1).trans hdmiss
    have herr := copytree_error_of_src fs2 dataSrc dataDest hd2
    rw [run_of_data_error fs fs1 fs2 _ hres hsok herr]
    refine ⟨rfl, rfl, fun r => ?_⟩
    show fs2.file (scriptsDest ++ r) = fs.file (scriptsSrc ++ r)
    rw [copytree_ok_file fs1 fs2 scriptsSrc scriptsDest hsok (scriptsDest ++ r)]
    have hy : List.isPrefixOf scriptsDest (scriptsDest ++ r) = true :=
      isPrefixOf_append_right scriptsDest r
    simp only [hy, if_true]
    rw [List.drop_left]
    exact (hfr (scriptsSrc ++ r) (off_dest_src _ _)).2

/-- Claim C3 witness: a source tree with `scripts` present and `data`
missing. -/
theorem copy_skill_scripts_before_data_witness :
    (copy_skill fsNoData).err = some (.copySrcMissing dataSrc)
    ∧ (copy_skill fsNoData).out = [scriptsLine]
    ∧ ∀ r, (copy_skill fsNoData).fs.file (scriptsDest ++ r)
        = fsNoData.file (scriptsSrc ++ r) :=
  (copy_skill_scripts_before_data fsNoData (by decide)
    (fun h => absurd h (by decide))).2 (by decide) (by decide)

/-- Claim C4: on a tree-shaped filesystem the run raises an uncaught
error exactly when one of the two source subdirectories is missing;
when both exist every filesystem operation of the run succeeds and the
process finishes cleanly after both copies. -/
theorem copy_skill_err_iff_sources (fs : FS)
    (hdir : pexists fs DEST_DIR = true → fs.isDir DEST_DIR = true)
    (hwf : pexists fs DEST_DIR = false →
      ∀ r, pexists fs (DEST_DIR ++ r) = false) :
    (copy_skill fs).err = none
      ↔ (fs.isDir scriptsSrc = true ∧ fs.isDir dataSrc = true) := by
  constructor
  · intro hok
    obtain ⟨fs1, fs2, fs3, hres, hsok, hdok, -, -⟩ := copy_skill_ok_shape fs hok
    have hfr := resetStep_ok_frame fs fs1 hres
    have h1 : fs.isDir scriptsSrc = true :=
      ((hfr scriptsSrc (by decide)).1).symm.trans
        (copytree_ok_conds _ _ _ _ hsok).1
    have hf2 := copytree_ok_frame fs1 fs2 scriptsSrc scriptsDest hsok dataSrc
      (by decide) (by decide)
    have h2 : fs.isDir dataSrc = true :=
      ((hf2.1.trans (hfr dataSrc (by decide)).1).symm).trans
        (copytree_ok_conds _ _ _ _ hdok).1
    exact ⟨h1, h2⟩
  · intro h
    exact run_ok_of fs hdir hwf h.1 h.2

/-- Claim C4 witness: both source subdirectories exist in the example
tree, so the run finishes cleanly. -/
theorem copy_skill_err_iff_sources_witness : (copy_skill fsEx).err = none :=
  (copy_skill_err_iff_sources fsEx (by decide)
    (fun h => absurd h (by decide))).mpr (by decide)

/-- Claim C5: running the tool twice on an unchanged source gives, after
the second run, a filesystem identical to the one after the first run —
the operation is idempotent with respect to the final state. -/
theorem copy_skill_idempotent (fs : FS)
    (hdir : pexists fs DEST_DIR = true → fs.isDir DEST_DIR = true)
    (hwf : pexists fs DEST_DIR = false →
      ∀ r, pexists fs (DEST_DIR ++ r) = false)
    (hs : fs.isDir scriptsSrc = true) (hd : fs.isDir dataSrc = true) :
    ∀ q, (copy_skill ((copy_skill fs).fs)).fs.isDir q
          = (copy_skill fs).fs.isDir q
       ∧ (copy_skill ((copy_skill fs).fs)).fs.file q
          = (copy_skill fs).fs.file q := by
  have hok1 : (copy_skill fs).err = none := run_ok_of fs hdir hwf hs hd
  have hch1 := run_ok_dest_chars fs hwf hok1
  have hdir2 : pexists (copy_skill fs).fs DEST_DIR = true →
      (copy_skill fs).fs.isDir DEST_DIR = true := fun _ => hch1.1.1
  have hwf2 : pexists (copy_skill fs).fs DEST_DIR = false →
      ∀ r, pexists (copy_skill fs).fs (DEST_DIR ++ r) = false :=
    fun hfalse =>
      absurd ((pexists_false_iff _ _).mp hfalse).1 (by simp [hch1.1.1])
  have hs2 : (copy_skill fs).fs.isDir scriptsSrc = true := by
    rw [(copy_skill_frame fs scriptsSrc (by decide)).1]; exact hs
  have hd2 : (copy_skill fs).fs.isDir dataSrc = true := by
    rw [(copy_skill_frame fs dataSrc (by decide)).1]; exact hd
  have hok2 : (copy_skill ((copy_skill fs).fs)).err = none :=
    run_ok_of _ hdir2 hwf2 hs2 hd2
  have hch2 := run_ok_dest_chars ((copy_skill fs).fs) hwf2 hok2
  intro q
  cases hpre : List.isPrefixOf DEST_DIR q with
  | false => exact copy_skill_frame ((copy_skill fs).fs) q hpre
  | true =>
    obtain ⟨r, rfl⟩ := exists_suffix_of_isPrefixOf DEST_DIR q hpre
    cases r with
    | nil =>
      rw [List.append_nil]
      exact ⟨hch2.1.1.trans hch1.1.1.symm, hch2.1.2.trans hch1.1.2.symm⟩
    | cons a rr =>
      by_cases ha : a = "scripts"
      · subst ha
        have he : DEST_DIR ++ "scripts" :: rr = scriptsDest ++ rr := by
          simp [scriptsDest, DEST_DIR]
        rw [he]
        have h1 := hch1.2.1 rr
        have h2 := hch2.2.1 rr
        have hf := copy_skill_frame fs (scriptsSrc ++ rr) (off_dest_src _ _)
        exact ⟨h2.2.trans (hf.1.trans h1.2.symm),
               h2.1.trans (hf.2.trans h1.1.symm)⟩
      · by_cases hb : a = "data"
        · subst hb
          have he : DEST_DIR ++ "data" :: rr = dataDest ++ rr := by
            simp [dataDest, DEST_DIR]
          rw [he]
          have h1 := hch1.2.2.1 rr
          have h2 := hch2.2.2.1 rr
          have hf := copy_skill_frame fs (dataSrc ++ rr) (off_dest_src _ _)
          exact ⟨h2.2.trans (hf.1.trans h1.2.symm),
                 h2.1.trans (hf.2.trans h1.1.symm)⟩
        · have h1 := hch1.2.2.2 a rr ha hb
          have h2 := hch2.2.2.2 a rr ha hb
          exact ⟨h2.2.trans h1.2.symm, h2.1.trans h1.1.symm⟩

/-- Claim C5 witness: the state of the example build script after one
and after two runs agrees. -/
theorem copy_skill_idempotent_witness :
    (copy_skill ((copy_skill fsEx).fs)).fs.file (scriptsDest ++ ["build.sh"])
      = (copy_skill fsEx).fs.file (scriptsDest ++ ["build.sh"]) :=
  (copy_skill_idempotent fsEx (by decide) (fun h => absurd h (by decide))
    (by decide) (by decide) (scriptsDest ++ ["build.sh"])).2

/-- Claim C6: the collision branch of the copy is unreachable — after
the unconditional reset neither destination subtree exists when its
copy begins, so no run ever ends with a destination-exists error. -/
theorem copy_skill_no_collision (fs : FS)
    (hdir : pexists fs DEST_DIR = true → fs.isDir DEST_DIR = true)
    (hwf : pexists fs DEST_DIR = false →
      ∀ r, pexists fs (DEST_DIR ++ r) = false) :
    ∀ p, (copy_skill fs).err ≠ some (.copyDstExists p) := by
  intro p
  obtain ⟨fs1, hres⟩ := resetStep_ok_of fs hdir
  have hcl := resetStep_ok_clears fs fs1 hwf hres
  cases hs : copytree fs1 scriptsSrc scriptsDest with
  | error e =>
    rw [run_of_scripts_error fs fs1 e hres hs]
    rcases copytree_error_shape fs1 scriptsSrc scriptsDest e hs with
      ⟨he, -⟩ | ⟨he, hex⟩
    · subst he; simp
    · have hcleared : pexists fs1 scriptsDest = false := by
        rw [pexists_false_iff]; exact hcl ["scripts"]
      rw [hcleared] at hex; cases hex
  | ok fs2 =>
    cases hd : copytree fs2 dataSrc dataDest with
    | error e =>
      rw [run_of_data_error fs fs1 fs2 e hres hs hd]
      rcases copytree_error_shape fs2 dataSrc dataDest e hd with
        ⟨he, -⟩ | ⟨he, hex⟩
      · subst he; simp
      · have hcleared := scriptsStep_dataDest_clear fs fs1 fs2 hwf hres hs
        rw [hcleared] at hex; cases hex
    | ok fs3 =>
      rw [run_of_all_ok fs fs1 fs2 fs3 hres hs hd]
      simp

/-- Claim C6 witness. -/
theorem copy_skill_no_collision_witness :
    (copy_skill fsEx).err ≠ some (.copyDstExists scriptsDest) :=
  copy_skill_no_collision fsEx (by decide) (fun h => absurd h (by decide))
    scriptsDest

/-- Claim C7: a successful run prints exactly two lines, first the one
reporting the scripts destination path, then the one reporting the data
destination path. -/
theorem copy_skill_output_lines (fs : FS)
    (hok : (copy_skill fs).err = none) :
    (copy_skill fs).out = [scriptsLine, dataLine] := by
  obtain ⟨fs1, fs2, fs3, -, -, -, -, hout⟩ := copy_skill_ok_shape fs hok
  exact hout

/-- Claim C7 witness. -/
theorem copy_skill_output_lines_witness :
    (copy_skill fsFresh).out
      = ["Copied scripts to " ++ pathStr scriptsDest,
         "Copied data to " ++ pathStr dataDest] :=
  copy_skill_output_lines fsFresh rfl

/-- Claim C8: the run reads neither the command line nor the
environment — the source and destination paths are literal constants —
so two invocations on the same filesystem state behave identically
whatever their arguments and environments. -/
theorem copy_skill_ignores_args_env :
    ∀ (a1 : List String) (e1 : List (String × String))
      (a2 : List String) (e2 : List (String × String)) (fs : FS),
      main a1 e1 fs = main a2 e2 fs :=
  fun _ _ _ _ _ => rfl

/-- Claim C9: no run, failing or successful, ever changes anything
under the source directory: every directory and every file of the
source tree is exactly as before. -/
theorem copy_skill_source_untouched :
    ∀ (fs : FS) (r : FsPath),
      (copy_skill fs).fs.isDir (SOURCE_DIR ++ r) = fs.isDir (SOURCE_DIR ++ r)
      ∧ (copy_skill fs).fs.file (SOURCE_DIR ++ r) = fs.file (SOURCE_DIR ++ r) :=
  fun fs r => copy_skill_frame fs (SOURCE_DIR ++ r) (off_dest_src _ _)

/-- Claim C10: the removal is guarded by the existence check: on a
fresh working directory the reset step performs no deletion and cannot
fail, and no run ever ends with the missing-path error of the recursive
delete. -/
theorem copy_skill_reset_guarded (fs : FS)
    (h : pexists fs DEST_DIR = false) :
    resetStep fs = .ok fs
    ∧ ∀ p, (copy_skill fs).err ≠ some (.rmtreeMissing p) := by
  have hok : resetStep fs = .ok fs := by unfold resetStep; simp [h]
  refine ⟨hok, fun p => ?_⟩
  cases hs : copytree fs scriptsSrc scriptsDest with
  | error e =>
    rw [run_of_scripts_error fs fs e hok hs]
    rcases copytree_error_shape fs scriptsSrc scriptsDest e hs with
      ⟨he, -⟩ | ⟨he, -⟩ <;> subst he <;> simp
  | ok fs2 =>
    cases hd : copytree fs2 dataSrc dataDest with
    | error e =>
      rw [run_of_data_error fs fs fs2 e hok hs hd]
      rcases copytree_error_shape fs2 dataSrc dataDest e hd with
        ⟨he, -⟩ | ⟨he, -⟩ <;> subst he <;> simp
    | ok fs3 =>
      rw [run_of_all_ok fs fs fs2 fs3 hok hs hd]
      simp

/-- Claim C10 witness: a fresh working directory. -/
theorem copy_skill_reset_guarded_witness :
    resetStep fsFresh = .ok fsFresh
    ∧ (copy_skill fsFresh).err ≠ some (.rmtreeMissing DEST_DIR) := by
  have hx := copy_skill_reset_guarded fsFresh (by decide)
  exact ⟨hx.1, hx.2 DEST_DIR⟩

end CopySkill
